import Mathlib

/-!
Verification development for the MRI anomaly-detection pipeline
(`backend/app/ai/preprocessing.py`, `backend/app/ai/detector.py`,
`backend/app/ai/postprocessing.py`).

The embedding follows the Python source line by line:
* numpy float64 arrays become real-valued grids indexed by `Fin h → Fin w`;
* numpy bool arrays become `Prop`-valued grids;
* scipy's binary erosion/dilation with the default 3×3 cross structuring
  element and `border_value = 0` become explicit neighbourhood operators;
* `scipy.ndimage.label` with its default cross structure (4-connectivity)
  is modelled through the reflexive-transitive closure of 4-adjacency
  inside a mask: two pixels get the same label exactly when they are
  connected, and labels are assigned in raster order of the first pixel
  of each component;
* `scipy.ndimage.gaussian_filter(sigma=2.0)` becomes the separable
  correlation with the truncated (radius 8, truncate=4.0) normalised
  Gaussian kernel and reflect boundary handling that scipy performs;
* raising a Python exception becomes returning `Except.error`.
-/

noncomputable section

open scoped Classical

namespace MRI

/-- A 2D float image: numpy `float64` array of shape `(h, w)`. -/
abbrev Img (h w : ℕ) : Type := Fin h → Fin w → ℝ

/-- A 2D boolean mask: numpy `bool` array of shape `(h, w)`. -/
abbrev Msk (h w : ℕ) : Type := Fin h → Fin w → Prop

/-- Mask lookup at integer coordinates; positions outside the grid read as
    `False`, matching scipy's `border_value=0` for binary morphology. -/
def getD {h w : ℕ} (m : Msk h w) (i j : ℤ) : Prop :=
  if hij : 0 ≤ i ∧ i < (h : ℤ) ∧ 0 ≤ j ∧ j < (w : ℤ) then
    m ⟨i.toNat, by omega⟩ ⟨j.toNat, by omega⟩
  else False

/-- One `scipy.ndimage.binary_erosion` step with the default structuring
    element `generate_binary_structure(2, 1)` (3×3 cross) and border value 0. -/
def erode1 {h w : ℕ} (m : Msk h w) : Msk h w := fun i j =>
  getD m ((i : ℕ) : ℤ) ((j : ℕ) : ℤ) ∧
  getD m (((i : ℕ) : ℤ) - 1) ((j : ℕ) : ℤ) ∧
  getD m (((i : ℕ) : ℤ) + 1) ((j : ℕ) : ℤ) ∧
  getD m ((i : ℕ) : ℤ) (((j : ℕ) : ℤ) - 1) ∧
  getD m ((i : ℕ) : ℤ) (((j : ℕ) : ℤ) + 1)

/-- One `scipy.ndimage.binary_dilation` step with the same cross structuring
    element and border value 0. -/
def dilate1 {h w : ℕ} (m : Msk h w) : Msk h w := fun i j =>
  getD m ((i : ℕ) : ℤ) ((j : ℕ) : ℤ) ∨
  getD m (((i : ℕ) : ℤ) - 1) ((j : ℕ) : ℤ) ∨
  getD m (((i : ℕ) : ℤ) + 1) ((j : ℕ) : ℤ) ∨
  getD m ((i : ℕ) : ℤ) (((j : ℕ) : ℤ) - 1) ∨
  getD m ((i : ℕ) : ℤ) (((j : ℕ) : ℤ) + 1)

/-- The pixels where a mask holds, as a finite set (`numpy` bool `.sum()`
    counts exactly these). -/
def maskSet {h w : ℕ} (m : Msk h w) : Finset (Fin h × Fin w) :=
  Finset.univ.filter (fun p => m p.1 p.2)

/-- Number of `True` pixels of a mask (`mask.sum()` on a bool array). -/
def maskCount {h w : ℕ} (m : Msk h w) : ℕ := (maskSet m).card

/-- Mean of an image restricted to the pixels of a mask
    (`image[mask].mean()`). -/
def meanOver {h w : ℕ} (m : Msk h w) (g : Img h w) : ℝ :=
  (∑ p in maskSet m, g p.1 p.2) / (maskCount m : ℝ)

/-- Population variance of an image restricted to a mask
    (the square of `image[mask].std()`, numpy default `ddof=0`). -/
def varOver {h w : ℕ} (m : Msk h w) (g : Img h w) : ℝ :=
  (∑ p in maskSet m, (g p.1 p.2 - meanOver m g) ^ 2) / (maskCount m : ℝ)

/-- Standard deviation of an image restricted to a mask
    (`image[mask].std()`). -/
def stdOver {h w : ℕ} (m : Msk h w) (g : Img h w) : ℝ :=
  Real.sqrt (varOver m g)

/-- Maximum entry of an image (`array.max()`; the code only evaluates it on
    nonempty grids, where `sSup` of the finite range is the maximum). -/
def gridMax {h w : ℕ} (f : Img h w) : ℝ :=
  sSup (Set.range (fun p : Fin h × Fin w => f p.1 p.2))

/-- Minimum entry of an image (`array.min()`). -/
def gridMin {h w : ℕ} (f : Img h w) : ℝ :=
  sInf (Set.range (fun p : Fin h × Fin w => f p.1 p.2))

/-! ### 4-connectivity, connected components and labelling -/

/-- 4-neighbourhood adjacency of two pixels (the default cross structure of
    `scipy.ndimage.label`). -/
def adjacent {h w : ℕ} (p q : Fin h × Fin w) : Prop :=
  (p.1 = q.1 ∧ ((p.2 : ℕ) + 1 = (q.2 : ℕ) ∨ (q.2 : ℕ) + 1 = (p.2 : ℕ))) ∨
  (p.2 = q.2 ∧ ((p.1 : ℕ) + 1 = (q.1 : ℕ) ∨ (q.1 : ℕ) + 1 = (p.1 : ℕ)))

/-- One connectivity step inside a mask: both endpoints lie in the mask and
    are 4-adjacent. -/
def maskStep {h w : ℕ} (m : Msk h w) (p q : Fin h × Fin w) : Prop :=
  m p.1 p.2 ∧ m q.1 q.2 ∧ adjacent p q

/-- Connectivity inside a mask: the reflexive-transitive closure of
    `maskStep`.  Two pixels of the mask receive the same label from
    `scipy.ndimage.label` exactly when they are connected in this sense. -/
def Reach {h w : ℕ} (m : Msk h w) : Fin h × Fin w → Fin h × Fin w → Prop :=
  Relation.ReflTransGen (maskStep m)

/-- The connected component of a pixel inside a mask (the set of pixels with
    the same label). -/
def component {h w : ℕ} (m : Msk h w) (p : Fin h × Fin w) : Finset (Fin h × Fin w) :=
  Finset.univ.filter (fun q => Reach m p q)

/-- Pixel count of the component of `p` (`(labeled == i).sum()` for the label
    `i` of `p`). -/
def compCard {h w : ℕ} (m : Msk h w) (p : Fin h × Fin w) : ℕ :=
  (component m p).card

/-- The small-component removal loop of the detector: after labelling, every
    pixel whose component has fewer than `k` pixels is set to `False`; the
    labels are computed once, before the loop, so removal is independent for
    each component. -/
def removeSmallComponents {h w : ℕ} (m : Msk h w) (k : ℕ) : Msk h w :=
  fun i j => m i j ∧ ¬ (compCard m (i, j) < k)

/-! ### Gaussian smoothing (`scipy.ndimage.gaussian_filter`, sigma = 2.0)

scipy uses `truncate = 4.0`, hence a kernel radius of
`int(truncate * sigma + 0.5) = 8`, the kernel
`exp(-x² / (2 σ²))` normalised to sum 1, applied as a separable
correlation along axis 0 then axis 1 with `reflect` boundary mode. -/

/-- Unnormalised Gaussian kernel value at integer offset `k`, for σ = 2. -/
def gaussKernelW (k : ℤ) : ℝ := Real.exp (-((k : ℝ) ^ 2) / (2 * 2 ^ 2))

/-- Normalisation constant of the truncated Gaussian kernel (radius 8). -/
def gaussKernelSum : ℝ := ∑ k in Finset.Icc (-8 : ℤ) 8, gaussKernelW k

/-- Normalised Gaussian kernel weight at offset `k`. -/
def gaussWeight (k : ℤ) : ℝ := gaussKernelW k / gaussKernelSum

/-- Reflect-mode index folding: scipy's `reflect` boundary
    `(d c b a | a b c d | d c b a)` extends the signal with period `2n`. -/
def reflectI (n : ℕ) (i : ℤ) : ℤ :=
  if i % (2 * (n : ℤ)) < (n : ℤ) then i % (2 * (n : ℤ))
  else 2 * (n : ℤ) - 1 - i % (2 * (n : ℤ))

theorem reflectI_bounds {n : ℕ} (hn : 0 < n) (i : ℤ) :
    0 ≤ reflectI n i ∧ reflectI n i < (n : ℤ) := by
  have h2n : (0 : ℤ) < 2 * (n : ℤ) := by positivity
  have hmod0 : 0 ≤ i % (2 * (n : ℤ)) := Int.emod_nonneg i (by omega)
  have hmod1 : i % (2 * (n : ℤ)) < 2 * (n : ℤ) := Int.emod_lt_of_pos i h2n
  unfold reflectI
  split <;> omega

/-- Reflect-mode index as a `Fin n`. -/
def reflectF {n : ℕ} (hn : 0 < n) (i : ℤ) : Fin n :=
  ⟨(reflectI n i).toNat, by
    have := reflectI_bounds hn i
    omega⟩

/-- 1D Gaussian correlation along axis 0 (rows), reflect boundary. -/
def smoothV {h w : ℕ} (x : Img h w) : Img h w := fun i j =>
  ∑ k in Finset.Icc (-8 : ℤ) 8, gaussWeight k * x (reflectF i.pos (((i : ℕ) : ℤ) + k)) j

/-- 1D Gaussian correlation along axis 1 (columns), reflect boundary. -/
def smoothH {h w : ℕ} (x : Img h w) : Img h w := fun i j =>
  ∑ k in Finset.Icc (-8 : ℤ) 8, gaussWeight k * x i (reflectF j.pos (((j : ℕ) : ℤ) + k))

/-- `scipy.ndimage.gaussian_filter(x, sigma=2.0)`: 1D filtering along each
    axis in turn. -/
def gaussianFilter {h w : ℕ} (x : Img h w) : Img h w := smoothH (smoothV x)

/-! ### The statistical detector (`detect_anomalies_image_processing`) -/

/-- Step 1a of the detector: `brain_mask = image > 0.1`. -/
def brainMask0 {h w : ℕ} (g : Img h w) : Msk h w := fun i j => g i j > 0.1

/-- Step 1b: `binary_erosion(brain_mask, iterations=3)`. -/
def erodedBrainMask {h w : ℕ} (g : Img h w) : Msk h w :=
  erode1 (erode1 (erode1 (brainMask0 g)))

/-- Mean intensity within the eroded brain mask (`tissue_values.mean()`). -/
def tissueMean {h w : ℕ} (g : Img h w) : ℝ := meanOver (erodedBrainMask g) g

/-- Standard deviation within the eroded brain mask (`tissue_values.std()`). -/
def tissueStd {h w : ℕ} (g : Img h w) : ℝ := stdOver (erodedBrainMask g) g

/-- Sensitivity-to-threshold map: `max(3.0 - sensitivity * 2.0, 0.5)`. -/
def thresholdStd (s : ℝ) : ℝ := max (3 - s * 2) 0.5

/-- Hyperintense pixels: `(image > mean + threshold*std) & brain_mask`. -/
def hyperMask {h w : ℕ} (g : Img h w) (s : ℝ) : Msk h w := fun i j =>
  g i j > tissueMean g + thresholdStd s * tissueStd g ∧ erodedBrainMask g i j

/-- Hypointense pixels: `(image < mean - threshold*std) & brain_mask`. -/
def hypoMask {h w : ℕ} (g : Img h w) (s : ℝ) : Msk h w := fun i j =>
  g i j < tissueMean g - thresholdStd s * tissueStd g ∧ erodedBrainMask g i j

/-- Raw binary anomaly mask: `hyper_mask | hypo_mask`. -/
def anomalyBinary0 {h w : ℕ} (g : Img h w) (s : ℝ) : Msk h w := fun i j =>
  hyperMask g s i j ∨ hypoMask g s i j

/-- After `binary_opening(anomaly_binary, iterations=2)`: two erosions then
    two dilations. -/
def openedBinary {h w : ℕ} (g : Img h w) (s : ℝ) : Msk h w :=
  dilate1 (dilate1 (erode1 (erode1 (anomalyBinary0 g s))))

/-- After `binary_closing(..., iterations=2)`: two dilations then two
    erosions.  This is the "cleaned" binary mask that gets labelled. -/
def cleanedBinary {h w : ℕ} (g : Img h w) (s : ℝ) : Msk h w :=
  erode1 (erode1 (dilate1 (dilate1 (openedBinary g s))))

/-- Minimum surviving region size: `max(10, int(20 * sensitivity))`.  Python's
    `int()` truncates toward zero, which for the nonnegative value
    `20 * sensitivity` is the floor. -/
def minRegionSize (s : ℝ) : ℕ := max 10 (Int.toNat ⌊20 * s⌋)

/-- The cleaned mask after the small-component removal loop. -/
def prunedBinary {h w : ℕ} (g : Img h w) (s : ℝ) : Msk h w :=
  removeSmallComponents (cleanedBinary g s) (minRegionSize s)

/-- Absolute z-score field restricted to the brain mask:
    `abs(image - mean) / std * brain_mask`. -/
def zField {h w : ℕ} (g : Img h w) : Img h w := fun i j =>
  if erodedBrainMask g i j then |g i j - tissueMean g| / tissueStd g else 0

/-- Z-scores normalised by their own maximum: `z / z.max()` when the maximum
    is positive, else the all-zero grid. -/
def normalizedZ {h w : ℕ} (g : Img h w) : Img h w :=
  if gridMax (zField g) > 0 then fun i j => zField g i j / gridMax (zField g)
  else fun _ _ => 0

/-- Normalised z-scores masked by the surviving anomaly components:
    `probability * anomaly_binary.astype(float)`. -/
def maskedProb {h w : ℕ} (g : Img h w) (s : ℝ) : Img h w := fun i j =>
  normalizedZ g i j * (if prunedBinary g s i j then 1 else 0)

/-- The masked probability after `gaussian_filter(probability, sigma=2.0)`. -/
def smoothedProb {h w : ℕ} (g : Img h w) (s : ℝ) : Img h w :=
  gaussianFilter (maskedProb g s)

/-- Final renormalisation: `probability / probability.max()` when the maximum
    is positive, else the smoothed grid unchanged. -/
def finalProb {h w : ℕ} (g : Img h w) (s : ℝ) : Img h w :=
  if gridMax (smoothedProb g s) > 0 then
    fun i j => smoothedProb g s i j / gridMax (smoothedProb g s)
  else smoothedProb g s

/-- Dimension-indexed core of `detect_anomalies_image_processing`: the two
    early returns (`np.zeros_like`) and the main statistical path. -/
def detectCore {h w : ℕ} (g : Img h w) (s : ℝ) : Img h w :=
  if maskCount (erodedBrainMask g) < 100 then fun _ _ => 0
  else if tissueStd g < 1e-6 then fun _ _ => 0
  else finalProb g s

/-- A dynamically-shaped 2D array, as the Python function receives it. -/
structure Grid where
  h : ℕ
  w : ℕ
  data : Img h w

/-- The statistical detector `detect_anomalies_image_processing` on a
    dynamically-shaped grid: the result has the shape of the input. -/
def detect_anomalies_image_processing (g : Grid) (s : ℝ) : Grid :=
  ⟨g.h, g.w, detectCore g.data s⟩

/-! ### Findings (`postprocessing.py`) -/

/-- The `Finding` dataclass.  `finding_id` is a random UUID string in the
    code and carries no information; bounding-box fields are Python `int`. -/
structure Finding where
  finding_id : String := ""
  finding_type : String := "anomaly"
  description : String := ""
  confidence : ℝ := 0
  x : ℤ := 0
  y : ℤ := 0
  width : ℤ := 0
  height : ℤ := 0
  severity : String := "low"

/-- Severity classification of `extract_findings_from_mask`:
    `high` if `peak > 0.8 and area > 100`, `elif peak > 0.5 or area > 50`
    then `moderate`, else `low`. -/
def severityOf (peak : ℝ) (area : ℕ) : String :=
  if peak > 0.8 ∧ area > 100 then "high"
  else if peak > 0.5 ∨ area > 50 then "moderate"
  else "low"

/-- The `_describe_finding` helper: a fixed string per severity tier. -/
def describe_finding (confidence : ℝ) (area : ℕ) (severity : String) : String :=
  if severity = "high" then
    "Hyperintense region detected with significant deviation from normal tissue"
  else if severity = "moderate" then "Hyperintense region detected"
  else "Subtle intensity variation detected"

/-- Peak value of a region: `region_mask.max()` where
    `region_mask = mask * region` zeroes the mask outside the region. -/
def regionPeak {h w : ℕ} (m : Img h w) (K : Finset (Fin h × Fin w)) : ℝ :=
  gridMax (fun i j => if (i, j) ∈ K then m i j else 0)

/-- Mean mask value over a region: `region_mask[region].mean()`. -/
def regionMean {h w : ℕ} (m : Img h w) (K : Finset (Fin h × Fin w)) : ℝ :=
  (∑ p in K, m p.1 p.2) / (K.card : ℝ)

/-- Construction of one finding from a labelled region: tight bounding box
    from the row/column extrema, confidence = mean, severity from peak and
    area.  (The code reaches this point only for nonempty regions, after its
    `rows.any() / cols.any()` check.) -/
def mkFinding {h w : ℕ} (m : Img h w) (K : Finset (Fin h × Fin w))
    (hK : K.Nonempty) : Finding :=
  let rows := K.image Prod.fst
  let cols := K.image Prod.snd
  let rmin := rows.min' (hK.image _)
  let rmax := rows.max' (hK.image _)
  let cmin := cols.min' (hK.image _)
  let cmax := cols.max' (hK.image _)
  { description := describe_finding (regionMean m K) K.card
      (severityOf (regionPeak m K) K.card)
    confidence := regionMean m K
    x := ((cmin : ℕ) : ℤ)
    y := ((rmin : ℕ) : ℤ)
    width := ((cmax : ℕ) : ℤ) - ((cmin : ℕ) : ℤ) + 1
    height := ((rmax : ℕ) : ℤ) - ((rmin : ℕ) : ℤ) + 1
    severity := severityOf (regionPeak m K) K.card }

/-- Thresholding of the probability mask: `binary = mask > threshold`. -/
def binOf {h w : ℕ} (m : Img h w) (t : ℝ) : Msk h w := fun i j => m i j > t

/-- Raster (row-major) index of a pixel, the order in which
    `scipy.ndimage.label` scans the array. -/
def ridx {h w : ℕ} (p : Fin h × Fin w) : ℕ := (p.1 : ℕ) * w + (p.2 : ℕ)

/-- All pixels in raster order. -/
def posList (h w : ℕ) : List (Fin h × Fin w) :=
  (List.finRange h).flatMap fun i => (List.finRange w).map fun j => (i, j)

/-- A pixel is the representative of its component when it is the first
    pixel of the component in raster order; `scipy.ndimage.label` assigns
    label numbers in this order. -/
def isRep {h w : ℕ} (m : Msk h w) (p : Fin h × Fin w) : Prop :=
  m p.1 p.2 ∧ ∀ q, Reach m p q → ridx p ≤ ridx q

/-- The labelled components of a mask, listed in label order
    (raster order of their first pixels). -/
def componentList {h w : ℕ} (m : Msk h w) : List (Finset (Fin h × Fin w)) :=
  ((posList h w).filter (fun p => decide (isRep m p))).map (component m)

/-- The findings in encounter (label) order, before sorting: one finding per
    labelled component, skipping empty projections as the code's `continue`
    does (labelled components are in fact never empty). -/
def rawFindings {h w : ℕ} (m : Img h w) (t : ℝ) : List Finding :=
  (componentList (binOf m t)).filterMap fun K =>
    if hK : K.Nonempty then some (mkFinding m K hK) else none

/-- Stable insertion into a confidence-descending list: the inserted finding
    goes before the first element whose confidence is not larger. -/
def insertDesc (f : Finding) : List Finding → List Finding
  | [] => [f]
  | g :: l => if g.confidence ≤ f.confidence then f :: g :: l else g :: insertDesc f l

/-- Stable sort by confidence, descending: the semantics of Python's stable
    `list.sort(key=lambda f: f.confidence, reverse=True)`. -/
def sortByConfDesc : List Finding → List Finding
  | [] => []
  | f :: l => insertDesc f (sortByConfDesc l)

/-- The `extract_findings_from_mask` pipeline: threshold, label, build one
    finding per component, sort by confidence descending (stable). -/
def extract_findings_from_mask {h w : ℕ} (m : Img h w) (t : ℝ) : List Finding :=
  sortByConfDesc (rawFindings m t)

/-! ### Heatmap rendering (`mask_to_heatmap_png`) -/

/-- Quantisation of a float in [0,1] to a byte:
    `(np.clip(v, 0, 1) * 255).astype(np.uint8)` (C truncation; the clipped
    value is nonnegative, so truncation is the floor). -/
def quant8 (x : ℝ) : Fin 256 :=
  ⟨(⌊min (max x 0) 1 * 255⌋).toNat, by
    have h1 : min (max x 0) 1 ≤ 1 := min_le_right _ _
    have h2 : min (max x 0) 1 * 255 ≤ 255 := by nlinarith
    have h3 : (⌊min (max x 0) 1 * 255⌋ : ℤ) ≤ 255 := by
      have := Int.floor_le_floor h2
      simpa using this
    omega⟩

/-- One entry of the jet colormap lookup table built by `_get_jet_lut`:
    the piecewise RGB ramp at `t = i / 255`, each channel clipped to [0,1]
    and scaled to 0..255 by `int(...)` truncation. -/
def jetRGB (i : Fin 256) : ℕ × ℕ × ℕ :=
  let t : ℝ := (i : ℕ) / 255
  let rgb : ℝ × ℝ × ℝ :=
    if t < 0.125 then (0, 0, 0.5 + t * 4)
    else if t < 0.375 then (0, (t - 0.125) * 4, 1)
    else if t < 0.625 then ((t - 0.375) * 4, 1, 1 - (t - 0.375) * 4)
    else if t < 0.875 then (1, 1 - (t - 0.625) * 4, 0)
    else (1 - (t - 0.875) * 4, 0, 0)
  ((⌊min (max rgb.1 0) 1 * 255⌋).toNat,
   (⌊min (max rgb.2.1 0) 1 * 255⌋).toNat,
   (⌊min (max rgb.2.2 0) 1 * 255⌋).toNat)

/-- Alpha channel value for one pixel:
    `(np.clip(mask, 0, 1) * alpha_scale * 255).astype(np.uint8)`; the cast
    to `uint8` truncates and reduces modulo 256. -/
def alphaQuant (ascale : ℝ) (x : ℝ) : ℕ :=
  (⌊min (max x 0) 1 * ascale * 255⌋).toNat % 256

/-- One RGBA pixel of the rendered heatmap. -/
structure RGBA where
  r : ℕ
  g : ℕ
  b : ℕ
  a : ℕ

/-- The RGBA buffer built by `mask_to_heatmap_png`: the jet colour at the
    quantised mask value, with the alpha channel overwritten from the mask
    intensity.  The PNG/base64 serialisation performed afterwards by PIL is
    an external, lossless encoding of exactly this buffer and is modelled by
    the buffer itself. -/
def mask_to_heatmap_png {h w : ℕ} (m : Img h w) (ascale : ℝ) :
    Fin h → Fin w → RGBA := fun i j =>
  let c := jetRGB (quant8 (m i j))
  ⟨c.1, c.2.1, c.2.2, alphaQuant ascale (m i j)⟩

/-! ### Summary (`generate_summary`) -/

/-- The summary record returned by `generate_summary`. -/
structure Summary where
  total_findings : ℕ
  max_confidence : ℝ
  regions_analyzed : ℕ
  recommendation : String

/-- Rounding to three decimals (`round(x, 3)`).  Python rounds half to even
    while `round` rounds half up; the two agree except at exact
    half-thousandths, which no claim depends on. -/
def round3 (x : ℝ) : ℝ := (round (x * 1000) : ℤ) / 1000

/-- The `generate_summary` aggregation. -/
def generate_summary (findings : List Finding) (regions_analyzed : ℕ) : Summary :=
  match findings with
  | [] =>
    ⟨0, 0, regions_analyzed, "No significant anomalies detected."⟩
  | f :: rest =>
    let maxConf := rest.foldl (fun acc g => max acc g.confidence) f.confidence
    let hasHigh := (f :: rest).any fun g => g.severity == "high"
    let hasModerate := (f :: rest).any fun g => g.severity == "moderate"
    ⟨(f :: rest).length, round3 maxConf, regions_analyzed,
      if hasHigh then
        "Significant regions of interest detected. Urgent clinical review recommended."
      else if hasModerate then
        "Regions of interest detected. Clinical review recommended."
      else
        "Minor variations detected. Routine follow-up may be sufficient."⟩

/-! ### Preprocessing (`preprocessing.py`) -/

/-- Errors a preprocessing call can raise: the explicit
    `ValueError("Expected 2D pixel array, ...")` shape check (the spec's
    ValidationError), numpy's `ValueError` for a reduction (`min`/`max`)
    over an empty array, and `IndexError` for `pixel_array[0]` on an array
    with an empty first axis. -/
inductive PreErr where
  | validation : String → PreErr
  | valueError : PreErr
  | indexError : PreErr

/-- A raw numpy array of rank 1 to 4, as `preprocess_for_detection` may
    receive it. -/
inductive NDArr where
  | one : (n : ℕ) → (Fin n → ℝ) → NDArr
  | two : (hh ww : ℕ) → (Fin hh → Fin ww → ℝ) → NDArr
  | three : (d hh ww : ℕ) → (Fin d → Fin hh → Fin ww → ℝ) → NDArr
  | four : (a d hh ww : ℕ) → (Fin a → Fin d → Fin hh → Fin ww → ℝ) → NDArr

/-- `normalize_pixel_data`: linear min-max scaling to [0,1]; all-zero output
    when the image is constant (`max_val == min_val`). -/
def normalize_pixel_data {h w : ℕ} (g : Img h w) : Img h w :=
  if gridMax g > gridMin g then
    fun i j => (g i j - gridMin g) / (gridMax g - gridMin g)
  else fun _ _ => 0

/-- The PIL `Image.resize(..., Image.LANCZOS)` call on an 8-bit grayscale
    image, abstracted: any function from `uint8` grids to `uint8` grids of
    the requested square size.  PIL is an external library; its output dtype
    (`uint8`, hence values 0..255) is captured by the `Fin 256` codomain,
    which is all the verified properties rely on. -/
def ResizeImpl : Type :=
  (hh ww : ℕ) → (Fin hh → Fin ww → Fin 256) → (t : ℕ) → (Fin t → Fin t → Fin 256)

/-- `resize_for_model` on a float input: the float image is clipped to
    [0,1] and scaled to `uint8` (`(np.clip(image, 0, 1)*255).astype(uint8)`),
    resized by PIL, and divided by 255 back to floats in [0,1].  The
    normalised input is float64, so the `dtype != uint8` branch is always
    the one taken. -/
def resize_for_model (R : ResizeImpl) {h w : ℕ} (g : Img h w) (t : ℕ) :
    Fin t → Fin t → ℝ := fun i j =>
  ((R h w (fun a b => quant8 (g a b)) t i j : ℕ) : ℝ) / 255

/-- The 2D path of `preprocess_for_detection`: numpy's `min`/`max` raise
    `ValueError` on a zero-size array, otherwise normalise and resize. -/
def preprocessTwo (R : ResizeImpl) {h w : ℕ} (g : Img h w) (t : ℕ) :
    Except PreErr (Fin t → Fin t → ℝ) :=
  if 0 < h ∧ 0 < w then .ok (resize_for_model R (normalize_pixel_data g) t)
  else .error .valueError

/-- `preprocess_for_detection`: a 3D array is reduced to its first frame
    (`pixel_array[0]`, an `IndexError` when there is none); anything that is
    not then 2D raises `ValueError("Expected 2D pixel array, ...")`. -/
def preprocess_for_detection (R : ResizeImpl) (a : NDArr) (t : ℕ) :
    Except PreErr (Fin t → Fin t → ℝ) :=
  match a with
  | .two _ _ g => preprocessTwo R g t
  | .three d _ _ g =>
    if hd : 0 < d then preprocessTwo R (g ⟨0, hd⟩) t else .error .indexError
  | .one _ _ => .error (.validation "Expected 2D pixel array")
  | .four _ _ _ _ _ => .error (.validation "Expected 2D pixel array")

/-! ### The orchestrator (`run_detection`) -/

/-- The alternate (U-Net) predictor behind `predict_with_model`: it may
    return a mask or raise (`Except.error`). -/
def Model : Type := Img 256 256 → Except String (Img 256 256)

/-- The mask-selection step of `run_detection` (lines 150-160): when a model
    is available and segmentation is requested, try it and fall back to the
    statistical method on any error; otherwise run the statistical method. -/
def chooseMask (model : Option Model) (analysis : String) (pre : Img 256 256)
    (s : ℝ) : Img 256 256 :=
  match model with
  | some m =>
    if analysis = "segmentation" then
      match m pre with
      | .ok msk => msk
      | .error _ => detectCore pre s
    else detectCore pre s
  | none => detectCore pre s

/-- An overlay record: the heatmap buffer with its declared metadata (the
    base64 PNG `data` field is the lossless encoding of the RGBA buffer). -/
structure Overlay where
  otype : String
  rgba : Fin 256 → Fin 256 → RGBA
  width : ℕ
  height : ℕ
  colormap : String

/-- The API response assembled by `run_detection`, minus the wall-clock
    `processing_time_ms` field, which measures real time and carries no
    functional content. -/
structure DetectionResult where
  status : String
  analysis_type : String
  findings : List Finding
  overlay : Overlay
  summary : Summary

/-- The part of `run_detection` downstream of preprocessing: detection with
    fallback, finding extraction with the sensitivity-derived threshold
    `max(0.1, 0.5 - sensitivity * 0.4)`, heatmap rendering with
    `alpha_scale=0.7`, and summary generation. -/
def run_detection_core (model : Option Model) (pre : Img 256 256) (s : ℝ)
    (analysis : String) : DetectionResult :=
  let msk := chooseMask model analysis pre s
  let findings := extract_findings_from_mask msk (max 0.1 (0.5 - s * 0.4))
  { status := "completed"
    analysis_type := analysis
    findings := findings
    overlay := ⟨"heatmap", mask_to_heatmap_png msk 0.7, 256, 256, "jet"⟩
    summary := generate_summary findings 1 }

/-- The full `run_detection` pipeline: preprocess to 256×256 (propagating
    its errors), then the downstream stages. -/
def run_detection (R : ResizeImpl) (model : Option Model) (raw : NDArr)
    (s : ℝ) (analysis : String) : Except PreErr DetectionResult :=
  (preprocess_for_detection R raw 256).map fun pre =>
    run_detection_core model pre s analysis

/-! ### Auxiliary definitions used by the verification -/

/-- The sublist of findings with a given confidence, in order: used to state
    that the stable sort keeps the encounter order of tied findings. -/
def listOfConf (c : ℝ) : List Finding → List Finding
  | [] => []
  | f :: l => if f.confidence = c then f :: listOfConf c l else listOfConf c l

/-- A concrete 1×1 probability mask used to instantiate witnesses. -/
def sampleImg : Img 1 1 := fun _ _ => 1

/-- The single labelled component of `sampleImg` thresholded at 1/2. -/
def sampleK : Finset (Fin 1 × Fin 1) := component (binOf sampleImg (1 / 2)) (0, 0)

/-- The single finding extracted from `sampleImg` at threshold 1/2. -/
def sampleFinding : Finding :=
  mkFinding sampleImg sampleK
    ⟨(0, 0), Finset.mem_filter.2 ⟨Finset.mem_univ _, Relation.ReflTransGen.refl⟩⟩

/-- A trivial stand-in resize backend used to instantiate witnesses. -/
def trivialResize : ResizeImpl := fun _ _ _ _ _ _ => 0

/-! ### General lemmas about the embedded operations -/

theorem gridMax_ge {h w : ℕ} (f : Img h w) (i : Fin h) (j : Fin w) :
    f i j ≤ gridMax f :=
  le_csSup (Set.Finite.bddAbove (Set.finite_range _)) ⟨(i, j), rfl⟩

theorem gaussKernelSum_pos : 0 < gaussKernelSum :=
  Finset.sum_pos (fun k _ => Real.exp_pos _) ⟨0, by decide⟩

theorem gaussWeight_nonneg (k : ℤ) : 0 ≤ gaussWeight k :=
  div_nonneg (Real.exp_pos _).le gaussKernelSum_pos.le

theorem smoothV_nonneg {h w : ℕ} {x : Img h w} (hx : ∀ i j, 0 ≤ x i j)
    (i : Fin h) (j : Fin w) : 0 ≤ smoothV x i j :=
  Finset.sum_nonneg fun k _ => mul_nonneg (gaussWeight_nonneg k) (hx _ _)

theorem smoothH_nonneg {h w : ℕ} {x : Img h w} (hx : ∀ i j, 0 ≤ x i j)
    (i : Fin h) (j : Fin w) : 0 ≤ smoothH x i j :=
  Finset.sum_nonneg fun k _ => mul_nonneg (gaussWeight_nonneg k) (hx _ _)

theorem gaussianFilter_nonneg {h w : ℕ} {x : Img h w} (hx : ∀ i j, 0 ≤ x i j)
    (i : Fin h) (j : Fin w) : 0 ≤ gaussianFilter x i j :=
  smoothH_nonneg (fun i j => smoothV_nonneg hx i j) i j

theorem zField_nonneg {h w : ℕ} (g : Img h w) (i : Fin h) (j : Fin w) :
    0 ≤ zField g i j := by
  unfold zField
  split
  · exact div_nonneg (abs_nonneg _) (Real.sqrt_nonneg _)
  · exact le_refl 0

theorem normalizedZ_nonneg {h w : ℕ} (g : Img h w) (i : Fin h) (j : Fin w) :
    0 ≤ normalizedZ g i j := by
  unfold normalizedZ
  split
  · exact div_nonneg (zField_nonneg g i j) (by positivity)
  · exact le_refl 0

theorem maskedProb_nonneg {h w : ℕ} (g : Img h w) (s : ℝ) (i : Fin h) (j : Fin w) :
    0 ≤ maskedProb g s i j := by
  unfold maskedProb
  refine mul_nonneg (normalizedZ_nonneg g i j) ?_
  split <;> norm_num

theorem smoothedProb_nonneg {h w : ℕ} (g : Img h w) (s : ℝ) (i : Fin h) (j : Fin w) :
    0 ≤ smoothedProb g s i j :=
  gaussianFilter_nonneg (fun i j => maskedProb_nonneg g s i j) i j

/-! ### Claim theorems -/

/-- Claim C1: for every normalized 2D input grid and every sensitivity in
    [0,1], the probability mask returned by
    `detect_anomalies_image_processing` has exactly the shape of the input
    grid and every value in it lies in [0,1]. -/
theorem claim1_detector_shape_and_range (g : Grid) (s : ℝ)
    (hs0 : 0 ≤ s) (hs1 : s ≤ 1) (hg : ∀ i j, 0 ≤ g.data i j ∧ g.data i j ≤ 1) :
    ((detect_anomalies_image_processing g s).h = g.h ∧
      (detect_anomalies_image_processing g s).w = g.w) ∧
    (∀ i j, 0 ≤ (detect_anomalies_image_processing g s).data i j ∧
      (detect_anomalies_image_processing g s).data i j ≤ 1) := by
  refine ⟨⟨rfl, rfl⟩, ?_⟩
  intro i j
  show 0 ≤ detectCore g.data s i j ∧ detectCore g.data s i j ≤ 1
  unfold detectCore
  split_ifs with h1 h2
  · exact ⟨le_refl 0, by norm_num⟩
  · exact ⟨le_refl 0, by norm_num⟩
  · unfold finalProb
    have hP0 : ∀ i j, 0 ≤ smoothedProb g.data s i j :=
      fun i j => smoothedProb_nonneg g.data s i j
    have hPle : smoothedProb g.data s i j ≤ gridMax (smoothedProb g.data s) :=
      gridMax_ge _ i j
    split_ifs with h3
    · exact ⟨div_nonneg (hP0 i j) h3.le, (div_le_one h3).2 hPle⟩
    · refine ⟨hP0 i j, ?_⟩
      have hle0 : smoothedProb g.data s i j ≤ 0 := le_trans hPle (not_lt.1 h3)
      linarith

/-- Witness for C1: the theorem applied to a concrete 1×1 normalized grid
    and sensitivity 1/2. -/
theorem claim1_witness :
    (0 : ℝ) ≤ 1 / 2 ∧ (1 / 2 : ℝ) ≤ 1 ∧
    (∀ i j, 0 ≤ (Grid.mk 1 1 fun _ _ => 0).data i j ∧
      (Grid.mk 1 1 fun _ _ => 0).data i j ≤ 1) ∧
    (((detect_anomalies_image_processing (Grid.mk 1 1 fun _ _ => 0) (1 / 2)).h =
        (Grid.mk 1 1 fun _ _ => (0 : ℝ)).h ∧
      (detect_anomalies_image_processing (Grid.mk 1 1 fun _ _ => 0) (1 / 2)).w =
        (Grid.mk 1 1 fun _ _ => (0 : ℝ)).w) ∧
    (∀ i j, 0 ≤ (detect_anomalies_image_processing (Grid.mk 1 1 fun _ _ => 0) (1 / 2)).data i j ∧
      (detect_anomalies_image_processing (Grid.mk 1 1 fun _ _ => 0) (1 / 2)).data i j ≤ 1)) :=
  ⟨by norm_num, by norm_num, fun i j => by norm_num,
    claim1_detector_shape_and_range (Grid.mk 1 1 fun _ _ => 0) (1 / 2)
      (by norm_num) (by norm_num) (fun i j => by norm_num)⟩

/-- Claim C3: if the alternate (learned-model) predictor raises any error,
    the error never propagates: the mask-selection step returns the
    statistical mask, and the full downstream result record is the one the
    pure statistical path produces. -/
theorem claim3_model_failure_fallback (m : Model) (pre : Img 256 256)
    (s : ℝ) (e : String) (hm : m pre = Except.error e) :
    chooseMask (some m) "segmentation" pre s = detectCore pre s ∧
    run_detection_core (some m) pre s "segmentation" =
      run_detection_core none pre s "segmentation" := by
  have hmask : chooseMask (some m) "segmentation" pre s = detectCore pre s := by
    show (if ("segmentation" : String) = "segmentation" then
        match m pre with
        | Except.ok msk => msk
        | Except.error _ => detectCore pre s
      else detectCore pre s) = detectCore pre s
    rw [if_pos rfl, hm]
  refine ⟨hmask, ?_⟩
  have h2 : chooseMask (some m) "segmentation" pre s =
      chooseMask none "segmentation" pre s := hmask
  unfold run_detection_core
  rw [h2]

/-- Witness for C3: a concrete always-failing predictor on a concrete
    preprocessed grid. -/
theorem claim3_witness :
    chooseMask (some fun _ => Except.error "boom") "segmentation"
        (fun _ _ => 0) (1 / 2) = detectCore (fun _ _ => 0) (1 / 2) ∧
    run_detection_core (some fun _ => Except.error "boom")
        (fun _ _ => 0) (1 / 2) "segmentation" =
      run_detection_core none (fun _ _ => 0) (1 / 2) "segmentation" :=
  claim3_model_failure_fallback (fun _ => Except.error "boom")
    (fun _ _ => 0) (1 / 2) "boom" rfl

/-- Claim C9: for a fixed `alpha_scale` in [0,1], the per-pixel alpha channel
    of the rendered heatmap equals the quantization of
    `mask value × alpha_scale × 255`, is monotonically non-decreasing in the
    mask value, and a mask value of 0 yields alpha 0, so an all-zero mask
    yields an all-zero alpha channel. -/
theorem claim9_alpha_channel {h w : ℕ} (m : Img h w) (a : ℝ)
    (ha0 : 0 ≤ a) (ha1 : a ≤ 1) :
    (∀ i j, (mask_to_heatmap_png m a i j).a = alphaQuant a (m i j)) ∧
    (∀ x y : ℝ, x ≤ y → alphaQuant a x ≤ alphaQuant a y) ∧
    alphaQuant a 0 = 0 ∧
    (∀ i j, m i j = 0 → (mask_to_heatmap_png m a i j).a = 0) := by
  have hbound : ∀ x : ℝ, (⌊min (max x 0) 1 * a * 255⌋).toNat < 256 := by
    intro x
    have hc1 : min (max x 0) 1 ≤ 1 := min_le_right _ _
    have hc0 : 0 ≤ min (max x 0) 1 := le_min (le_max_right x 0) zero_le_one
    have hle : min (max x 0) 1 * a * 255 ≤ 255 := by nlinarith
    have hfl : (⌊min (max x 0) 1 * a * 255⌋ : ℤ) ≤ 255 := by
      have := Int.floor_le_floor hle
      simpa using this
    omega
  have hzero : alphaQuant a 0 = 0 := by
    unfold alphaQuant
    norm_num
  refine ⟨fun i j => rfl, ?_, hzero, ?_⟩
  · intro x y hxy
    unfold alphaQuant
    rw [Nat.mod_eq_of_lt (hbound x), Nat.mod_eq_of_lt (hbound y)]
    have hclip : min (max x 0) 1 ≤ min (max y 0) 1 :=
      min_le_min (max_le_max hxy (le_refl 0)) (le_refl 1)
    have hmul : min (max x 0) 1 * a * 255 ≤ min (max y 0) 1 * a * 255 := by
      have := mul_le_mul_of_nonneg_right hclip ha0
      nlinarith
    exact Int.toNat_le_toNat (Int.floor_le_floor hmul)
  · intro i j hm0
    show alphaQuant a (m i j) = 0
    rw [hm0, hzero]

/-- Claim C5: a region's severity is `high` iff its peak exceeds 0.8 and its
    area exceeds 100; otherwise `moderate` iff its peak exceeds 0.5 or its
    area exceeds 50; otherwise `low`. -/
theorem claim5_severity_rule {h w : ℕ} (m : Img h w)
    (K : Finset (Fin h × Fin w)) (hK : K.Nonempty) :
    ((mkFinding m K hK).severity = "high" ↔
      (regionPeak m K > 0.8 ∧ K.card > 100)) ∧
    ((mkFinding m K hK).severity = "moderate" ↔
      (¬ (regionPeak m K > 0.8 ∧ K.card > 100) ∧
        (regionPeak m K > 0.5 ∨ K.card > 50))) ∧
    ((mkFinding m K hK).severity = "low" ↔
      (¬ (regionPeak m K > 0.8 ∧ K.card > 100) ∧
        ¬ (regionPeak m K > 0.5 ∨ K.card > 50))) := by
  have hsev : (mkFinding m K hK).severity = severityOf (regionPeak m K) K.card := rfl
  have hne1 : ("high" : String) ≠ "moderate" := by decide
  have hne2 : ("high" : String) ≠ "low" := by decide
  have hne3 : ("moderate" : String) ≠ "high" := by decide
  have hne4 : ("moderate" : String) ≠ "low" := by decide
  have hne5 : ("low" : String) ≠ "high" := by decide
  have hne6 : ("low" : String) ≠ "moderate" := by decide
  rw [hsev]
  unfold severityOf
  split_ifs with h1 h2
  · exact ⟨by simp [h1], by simp [hne1, h1], by simp [hne2, h1]⟩
  · exact ⟨by simp [hne3, h1], by simp [h1, h2], by simp [hne4, h2]⟩
  · exact ⟨by simp [hne5, h1], by simp [hne6, h1, h2], by simp [h1, h2]⟩

/-- Witness for C5: the theorem applied to a concrete singleton region of a
    concrete 1×1 mask. -/
theorem claim5_witness :
    (({((0 : Fin 1), (0 : Fin 1))} : Finset (Fin 1 × Fin 1)).Nonempty) ∧
    ((mkFinding (fun _ _ => (1 : ℝ)) {((0 : Fin 1), (0 : Fin 1))}
        ⟨_, Finset.mem_singleton_self _⟩).severity = "high" ↔
      (regionPeak (fun _ _ => (1 : ℝ)) {((0 : Fin 1), (0 : Fin 1))} > 0.8 ∧
        ({((0 : Fin 1), (0 : Fin 1))} : Finset (Fin 1 × Fin 1)).card > 100)) :=
  ⟨⟨_, Finset.mem_singleton_self _⟩,
    (claim5_severity_rule (fun _ _ => (1 : ℝ)) {((0 : Fin 1), (0 : Fin 1))}
      ⟨_, Finset.mem_singleton_self _⟩).1⟩

/-- Claim C2, amended: the pruning step removes exactly the components of
    the cleaned binary mask with fewer than `max(10, ⌊20·sensitivity⌋)`
    pixels (the code truncates `20·sensitivity` with `int()`; the claimed
    `round` differs, see the counterexample). -/
theorem claim2_prune_truncated {h w : ℕ} (g : Img h w) (s : ℝ)
    (hs0 : 0 ≤ s) (hs1 : s ≤ 1) (i : Fin h) (j : Fin w) :
    prunedBinary g s i j ↔
      (cleanedBinary g s i j ∧
        ¬ (compCard (cleanedBinary g s) (i, j) < max 10 (Int.toNat ⌊20 * s⌋))) :=
  Iff.rfl

/-- Witness for C2 (amended): the theorem applied to a concrete 1×1 grid at
    sensitivity 0. -/
theorem claim2_witness :
    (0 : ℝ) ≤ 0 ∧ (0 : ℝ) ≤ 1 ∧
    (prunedBinary (fun _ _ => (0 : ℝ) : Img 1 1) 0 0 0 ↔
      (cleanedBinary (fun _ _ => (0 : ℝ) : Img 1 1) 0 0 0 ∧
        ¬ (compCard (cleanedBinary (fun _ _ => (0 : ℝ) : Img 1 1) 0) (0, 0) <
            max 10 (Int.toNat ⌊20 * (0 : ℝ)⌋)))) :=
  ⟨le_refl 0, by norm_num,
    claim2_prune_truncated (fun _ _ => 0) 0 (le_refl 0) (by norm_num) 0 0⟩

/-- Counterexample for C2 as stated: with the claimed threshold
    `max(10, round(20·sensitivity))`, at sensitivity 0.575 the threshold
    would be `max(10, round 11.5) = 12`, yet the code keeps an 11-pixel
    component (its threshold is `max(10, int(11.5)) = 11`).  Shown on a
    1×11 all-true mask, whose single component has 11 pixels. -/
theorem claim2_counterexample :
    ¬ (∀ (h w : ℕ) (m : Msk h w) (s : ℝ), 0 ≤ s → s ≤ 1 →
        ∀ i j, removeSmallComponents m (minRegionSize s) i j ↔
          (m i j ∧ ¬ (compCard m (i, j) <
            max 10 (Int.toNat (round (20 * s)))))) := by
  intro hclaim
  have hline := hclaim 1 11 (fun _ _ => True) (23 / 40)
    (by norm_num) (by norm_num) 0 0
  have hreach : ∀ q : Fin 1 × Fin 11,
      Reach (fun _ _ => True : Msk 1 11) (0, 0) q := by
    have key : ∀ n (hn : n < 11),
        Reach (fun _ _ => True : Msk 1 11) (0, 0) (0, ⟨n, hn⟩) := by
      intro n
      induction n with
      | zero => intro hn; exact Relation.ReflTransGen.refl
      | succ k ih =>
        intro hn
        have hk : k < 11 := by omega
        refine (ih hk).tail ⟨trivial, trivial, Or.inl ⟨rfl, Or.inl rfl⟩⟩
    intro q
    obtain ⟨q1, q2⟩ := q
    have hq1 : q1 = 0 := Fin.eq_zero q1
    subst hq1
    have := key (q2 : ℕ) q2.isLt
    simpa using this
  have hcomp : component (fun _ _ => True : Msk 1 11) (0, 0) = Finset.univ := by
    unfold component
    exact Finset.filter_true_of_mem (fun q _ => hreach q)
  have hcard : compCard (fun _ _ => True : Msk 1 11) (0, 0) = 11 := by
    unfold compCard
    rw [hcomp]
    simp
  have hmin : minRegionSize (23 / 40) = 11 := by
    unfold minRegionSize
    have hfl : (⌊(20 : ℝ) * (23 / 40)⌋ : ℤ) = 11 := by norm_num
    rw [hfl]
    rfl
  have hround : (Int.toNat (round ((20 : ℝ) * (23 / 40)))) = 12 := by
    have h1 : ((20 : ℝ) * (23 / 40)) = 23 / 2 := by norm_num
    have h2 : round ((23 : ℝ) / 2) = 12 := by
      rw [round_eq]
      norm_num
    rw [h1, h2]
    rfl
  have hkeep : removeSmallComponents (fun _ _ => True : Msk 1 11)
      (minRegionSize (23 / 40)) 0 0 := by
    refine ⟨trivial, ?_⟩
    rw [hcard, hmin]
    omega
  have hdrop := (hline.1 hkeep).2
  rw [hcard, hround] at hdrop
  omega

/-- Witness for C9: the theorem applied at the code's concrete
    `alpha_scale = 0.7` on a concrete 1×1 mask. -/
theorem claim9_witness :
    (0 : ℝ) ≤ 0.7 ∧ (0.7 : ℝ) ≤ 1 ∧
    ((∀ i j, (mask_to_heatmap_png (fun _ _ => (0 : ℝ) : Img 1 1) 0.7 i j).a =
        alphaQuant 0.7 ((fun _ _ => (0 : ℝ) : Img 1 1) i j)) ∧
    (∀ x y : ℝ, x ≤ y → alphaQuant 0.7 x ≤ alphaQuant 0.7 y) ∧
    alphaQuant 0.7 0 = 0 ∧
    (∀ i j, (fun _ _ => (0 : ℝ) : Img 1 1) i j = 0 →
      (mask_to_heatmap_png (fun _ _ => (0 : ℝ) : Img 1 1) 0.7 i j).a = 0)) :=
  ⟨by norm_num, by norm_num,
    claim9_alpha_channel (fun _ _ => 0) 0.7 (by norm_num) (by norm_num)⟩

/-! ### Lemmas about the stable confidence sort -/

theorem mem_insertDesc {f a : Finding} {l : List Finding} :
    a ∈ insertDesc f l ↔ a = f ∨ a ∈ l := by
  induction l with
  | nil => simp [insertDesc]
  | cons g l ih =>
    unfold insertDesc
    split_ifs with hgf
    · simp [List.mem_cons]
    · simp only [List.mem_cons, ih]
      tauto

theorem pairwise_insertDesc {f : Finding} {l : List Finding}
    (hl : l.Pairwise (fun a b => b.confidence ≤ a.confidence)) :
    (insertDesc f l).Pairwise (fun a b => b.confidence ≤ a.confidence) := by
  induction l with
  | nil => simp [insertDesc]
  | cons g l ih =>
    rcases List.pairwise_cons.1 hl with ⟨hg, hl'⟩
    unfold insertDesc
    split_ifs with hgf
    · refine List.Pairwise.cons ?_ hl
      intro b hb
      rcases List.mem_cons.1 hb with rfl | hbl
      · exact hgf
      · exact le_trans (hg b hbl) hgf
    · refine List.Pairwise.cons ?_ (ih hl')
      intro b hb
      rcases mem_insertDesc.1 hb with rfl | hbl
      · exact le_of_lt (not_le.1 hgf)
      · exact hg b hbl

theorem pairwise_sortByConfDesc (l : List Finding) :
    (sortByConfDesc l).Pairwise (fun a b => b.confidence ≤ a.confidence) := by
  induction l with
  | nil => exact List.Pairwise.nil
  | cons f l ih => exact pairwise_insertDesc ih

theorem listOfConf_insertDesc (c : ℝ) (f : Finding) (l : List Finding) :
    listOfConf c (insertDesc f l) = listOfConf c (f :: l) := by
  induction l with
  | nil => rfl
  | cons g l ih =>
    unfold insertDesc
    split_ifs with hgf
    · rfl
    · show listOfConf c (g :: insertDesc f l) = listOfConf c (f :: g :: l)
      by_cases hg : g.confidence = c <;> by_cases hf : f.confidence = c
      · exact absurd (hg.trans hf.symm).le hgf
      · simp [listOfConf, hg, hf, ih]
      · simp [listOfConf, hg, hf, ih]
      · simp [listOfConf, hg, hf, ih]

theorem listOfConf_sortByConfDesc (c : ℝ) (l : List Finding) :
    listOfConf c (sortByConfDesc l) = listOfConf c l := by
  induction l with
  | nil => rfl
  | cons f l ih =>
    show listOfConf c (insertDesc f (sortByConfDesc l)) = listOfConf c (f :: l)
    rw [listOfConf_insertDesc]
    show (if f.confidence = c then f :: listOfConf c (sortByConfDesc l)
        else listOfConf c (sortByConfDesc l)) =
      (if f.confidence = c then f :: listOfConf c l else listOfConf c l)
    rw [ih]

/-- Claim C4: with fewer than 100 pixels in the eroded tissue mask, or a
    tissue standard deviation below 1e-6 (in particular for any
    constant-intensity input), the statistical detector returns (normally,
    as a total function) the all-zero mask, and downstream extraction at any
    nonnegative threshold yields zero findings. -/
theorem claim4_degenerate_zero_mask {h w : ℕ} (g : Img h w) (s t : ℝ)
    (ht : 0 ≤ t)
    (hdeg : maskCount (erodedBrainMask g) < 100 ∨ tissueStd g < 1e-6 ∨
      ∃ c, ∀ i j, g i j = c) :
    detectCore g s = (fun _ _ => 0) ∧
    extract_findings_from_mask (detectCore g s) t = [] := by
  have hzero : detectCore g s = (fun _ _ => 0) := by
    unfold detectCore
    by_cases h1 : maskCount (erodedBrainMask g) < 100
    · rw [if_pos h1]
    · rw [if_neg h1]
      have hstd : tissueStd g < 1e-6 := by
        rcases hdeg with hc | hs | ⟨c, hconst⟩
        · exact absurd hc h1
        · exact hs
        · have hcard : (maskCount (erodedBrainMask g) : ℝ) ≠ 0 := by
            have : maskCount (erodedBrainMask g) ≠ 0 := by omega
            exact_mod_cast this
          have hmean : meanOver (erodedBrainMask g) g = c := by
            unfold meanOver
            rw [Finset.sum_congr rfl (fun p _ => hconst p.1 p.2),
              Finset.sum_const, nsmul_eq_mul]
            show ((maskCount (erodedBrainMask g) : ℝ) * c) / _ = c
            field_simp
          have hvar : varOver (erodedBrainMask g) g = 0 := by
            unfold varOver
            have hz : ∀ p ∈ maskSet (erodedBrainMask g),
                (g p.1 p.2 - meanOver (erodedBrainMask g) g) ^ 2 = 0 := by
              intro p _
              rw [hconst p.1 p.2, hmean]
              ring
            rw [Finset.sum_congr rfl hz, Finset.sum_const]
            simp
          show stdOver (erodedBrainMask g) g < 1e-6
          unfold stdOver
          rw [hvar, Real.sqrt_zero]
          norm_num
      rw [if_pos hstd]
  refine ⟨hzero, ?_⟩
  rw [hzero]
  have hbin : ∀ (i : Fin h) (j : Fin w), ¬ binOf (fun _ _ => (0 : ℝ)) t i j :=
    fun i j => not_lt.2 ht
  have hcl : componentList (binOf (fun _ _ => (0 : ℝ) : Img h w) t) = [] := by
    unfold componentList
    have hfil : ((posList h w).filter fun p =>
        decide (isRep (binOf (fun _ _ => (0 : ℝ) : Img h w) t) p)) = [] := by
      rw [List.filter_eq_nil_iff]
      intro p _
      simp only [decide_eq_true_eq]
      exact fun hrep => hbin p.1 p.2 hrep.1
    rw [hfil]
    rfl
  unfold extract_findings_from_mask rawFindings
  rw [hcl]
  rfl

/-- Witness for C4: the theorem applied to a concrete constant 1×1 grid. -/
theorem claim4_witness :
    (0 : ℝ) ≤ 1 / 2 ∧
    (maskCount (erodedBrainMask (fun _ _ => (0 : ℝ) : Img 1 1)) < 100 ∨
      tissueStd (fun _ _ => (0 : ℝ) : Img 1 1) < 1e-6 ∨
      ∃ c, ∀ i j, (fun _ _ => (0 : ℝ) : Img 1 1) i j = c) ∧
    (detectCore (fun _ _ => (0 : ℝ) : Img 1 1) (1 / 2) = (fun _ _ => 0) ∧
      extract_findings_from_mask
        (detectCore (fun _ _ => (0 : ℝ) : Img 1 1) (1 / 2)) (1 / 2) = []) :=
  ⟨by norm_num, Or.inr (Or.inr ⟨0, fun _ _ => rfl⟩),
    claim4_degenerate_zero_mask (fun _ _ => 0) (1 / 2) (1 / 2) (by norm_num)
      (Or.inr (Or.inr ⟨0, fun _ _ => rfl⟩))⟩

/-- Claim C6, amended: a 3D input with at least one frame is reduced to its
    first frame; 1D and 4D inputs fail with the validation (`ValueError`
    shape) error; and every *nonempty* 2D input (both dimensions positive)
    succeeds, producing a `target_size × target_size` grid (the result type)
    with all values in [0,1].  (The claim as stated fails for empty 2D
    inputs, where numpy's reduction raises — see the counterexample.) -/
theorem claim6_preprocess_amended (R : ResizeImpl) (t : ℕ) :
    (∀ (d hh ww : ℕ) (data : Fin d → Fin hh → Fin ww → ℝ) (hd : 0 < d),
      preprocess_for_detection R (.three d hh ww data) t =
        preprocess_for_detection R (.two hh ww (data ⟨0, hd⟩)) t) ∧
    (∀ (n : ℕ) (data : Fin n → ℝ),
      preprocess_for_detection R (.one n data) t =
        .error (.validation "Expected 2D pixel array")) ∧
    (∀ (a d hh ww : ℕ) (data : Fin a → Fin d → Fin hh → Fin ww → ℝ),
      preprocess_for_detection R (.four a d hh ww data) t =
        .error (.validation "Expected 2D pixel array")) ∧
    (∀ (hh ww : ℕ) (data : Fin hh → Fin ww → ℝ), 0 < hh → 0 < ww →
      ∃ out, preprocess_for_detection R (.two hh ww data) t = .ok out ∧
        ∀ i j, 0 ≤ out i j ∧ out i j ≤ 1) := by
  refine ⟨?_, fun n data => rfl, fun a d hh ww data => rfl, ?_⟩
  · intro d hh ww data hd
    show (if hd' : 0 < d then preprocessTwo R (data ⟨0, hd'⟩) t
        else .error .indexError) = preprocessTwo R (data ⟨0, hd⟩) t
    rw [dif_pos hd]
  · intro hh ww data h0 hw0
    refine ⟨resize_for_model R (normalize_pixel_data data) t, ?_, ?_⟩
    · show preprocessTwo R data t = _
      unfold preprocessTwo
      rw [if_pos ⟨h0, hw0⟩]
    · intro i j
      unfold resize_for_model
      constructor
      · positivity
      · have hlt : ((R hh ww (fun a b => quant8 (normalize_pixel_data data a b))
            t i j : ℕ)) ≤ 255 := Nat.lt_succ_iff.1 (Fin.isLt _)
        rw [div_le_one (by norm_num : (0 : ℝ) < 255)]
        exact_mod_cast hlt

/-- Witness for C6 (amended): concrete nonempty 2D and 3D inputs through a
    concrete resize backend. -/
theorem claim6_witness :
    (0 : ℕ) < 1 ∧
    (∃ out, preprocess_for_detection trivialResize
        (.two 1 1 (fun _ _ => 0)) 256 = .ok out ∧
      ∀ i j, 0 ≤ out i j ∧ out i j ≤ 1) ∧
    preprocess_for_detection trivialResize (.three 1 1 1 (fun _ _ _ => 0)) 256 =
      preprocess_for_detection trivialResize
        (.two 1 1 ((fun _ _ _ => (0 : ℝ)) (⟨0, Nat.one_pos⟩ : Fin 1))) 256 :=
  ⟨Nat.one_pos,
    (claim6_preprocess_amended trivialResize 256).2.2.2 1 1 (fun _ _ => 0)
      Nat.one_pos Nat.one_pos,
    (claim6_preprocess_amended trivialResize 256).1 1 1 1 (fun _ _ _ => 0)
      Nat.one_pos⟩

/-- Counterexample for C6 as stated: a 0×0 array is a 2D numeric input, yet
    preprocessing does not succeed on it — numpy's `min()` reduction raises
    `ValueError` on a zero-size array. -/
theorem claim6_counterexample :
    preprocess_for_detection trivialResize
      (.two 0 0 (fun _ _ => 0)) 256 = .error .valueError := by
  show preprocessTwo trivialResize (fun _ _ => (0 : ℝ) : Img 0 0) 256 = _
  unfold preprocessTwo
  rw [if_neg]
  omega

theorem mem_sortByConfDesc {a : Finding} {l : List Finding} :
    a ∈ sortByConfDesc l ↔ a ∈ l := by
  induction l with
  | nil => simp [sortByConfDesc]
  | cons f l ih =>
    show a ∈ insertDesc f (sortByConfDesc l) ↔ _
    rw [mem_insertDesc]
    simp [List.mem_cons, ih]

theorem mem_rawFindings {h w : ℕ} {m : Img h w} {t : ℝ} {f : Finding}
    (hf : f ∈ rawFindings m t) :
    ∃ K, ∃ hK : K.Nonempty, K ∈ componentList (binOf m t) ∧ f = mkFinding m K hK := by
  rcases List.mem_filterMap.1 hf with ⟨K, hKmem, hsome⟩
  by_cases hK : K.Nonempty
  · rw [dif_pos hK] at hsome
    exact ⟨K, hK, hKmem, (Option.some_injective _ hsome).symm⟩
  · rw [dif_neg hK] at hsome
    cases hsome

theorem mkFinding_bbox {h w : ℕ} (m : Img h w) (K : Finset (Fin h × Fin w))
    (hK : K.Nonempty) :
    0 ≤ (mkFinding m K hK).x ∧
    (mkFinding m K hK).x + (mkFinding m K hK).width ≤ (w : ℤ) ∧
    0 ≤ (mkFinding m K hK).y ∧
    (mkFinding m K hK).y + (mkFinding m K hK).height ≤ (h : ℤ) ∧
    1 ≤ (mkFinding m K hK).width ∧ 1 ≤ (mkFinding m K hK).height := by
  have hrne : (K.image Prod.fst).Nonempty := hK.image _
  have hcne : (K.image Prod.snd).Nonempty := hK.image _
  obtain ⟨a, ha⟩ := id hrne
  obtain ⟨b, hb⟩ := id hcne
  have hrmm : ((K.image Prod.fst).min' hrne : ℕ) ≤ ((K.image Prod.fst).max' hrne : ℕ) :=
    Fin.le_def.1 (le_trans (Finset.min'_le _ a ha) (Finset.le_max' _ a ha))
  have hcmm : ((K.image Prod.snd).min' hcne : ℕ) ≤ ((K.image Prod.snd).max' hcne : ℕ) :=
    Fin.le_def.1 (le_trans (Finset.min'_le _ b hb) (Finset.le_max' _ b hb))
  have hrlt : ((K.image Prod.fst).max' hrne : ℕ) < h :=
    ((K.image Prod.fst).max' hrne).isLt
  have hclt : ((K.image Prod.snd).max' hcne : ℕ) < w :=
    ((K.image Prod.snd).max' hcne).isLt
  refine ⟨?_, ?_, ?_, ?_, ?_, ?_⟩
  · show (0 : ℤ) ≤ (((K.image Prod.snd).min' hcne : ℕ) : ℤ)
    omega
  · show (((K.image Prod.snd).min' hcne : ℕ) : ℤ) +
      ((((K.image Prod.snd).max' hcne : ℕ) : ℤ) -
        (((K.image Prod.snd).min' hcne : ℕ) : ℤ) + 1) ≤ (w : ℤ)
    omega
  · show (0 : ℤ) ≤ (((K.image Prod.fst).min' hrne : ℕ) : ℤ)
    omega
  · show (((K.image Prod.fst).min' hrne : ℕ) : ℤ) +
      ((((K.image Prod.fst).max' hrne : ℕ) : ℤ) -
        (((K.image Prod.fst).min' hrne : ℕ) : ℤ) + 1) ≤ (h : ℤ)
    omega
  · show (1 : ℤ) ≤ (((K.image Prod.snd).max' hcne : ℕ) : ℤ) -
      (((K.image Prod.snd).min' hcne : ℕ) : ℤ) + 1
    omega
  · show (1 : ℤ) ≤ (((K.image Prod.fst).max' hrne : ℕ) : ℤ) -
      (((K.image Prod.fst).min' hrne : ℕ) : ℤ) + 1
    omega

/-- Claim C8: every extracted finding's bounding box lies within the mask
    bounds, with width and height at least 1. -/
theorem claim8_bbox_in_bounds {h w : ℕ} (m : Img h w) (t : ℝ) (f : Finding)
    (hf : f ∈ extract_findings_from_mask m t) :
    0 ≤ f.x ∧ f.x + f.width ≤ (w : ℤ) ∧ 0 ≤ f.y ∧ f.y + f.height ≤ (h : ℤ) ∧
    1 ≤ f.width ∧ 1 ≤ f.height := by
  have hraw : f ∈ rawFindings m t := mem_sortByConfDesc.1 hf
  obtain ⟨K, hK, _, rfl⟩ := mem_rawFindings hraw
  exact mkFinding_bbox m K hK

/-! ### Concrete evaluation of the extraction pipeline on `sampleImg` -/

theorem sample_isRep : isRep (binOf sampleImg (1 / 2)) (0, 0) := by
  constructor
  · show sampleImg 0 0 > 1 / 2
    norm_num [sampleImg]
  · intro q _
    show ridx ((0 : Fin 1), (0 : Fin 1)) ≤ ridx q
    simp [ridx]

theorem sampleK_nonempty : sampleK.Nonempty :=
  ⟨(0, 0), Finset.mem_filter.2 ⟨Finset.mem_univ _, Relation.ReflTransGen.refl⟩⟩

theorem sample_componentList :
    componentList (binOf sampleImg (1 / 2)) = [sampleK] := by
  unfold componentList
  have hpl : posList 1 1 = [((0 : Fin 1), (0 : Fin 1))] := by decide
  rw [hpl, List.filter_cons]
  have hdec : decide (isRep (binOf sampleImg (1 / 2)) ((0 : Fin 1), (0 : Fin 1))) = true :=
    decide_eq_true sample_isRep
  rw [hdec]
  rfl

theorem sample_rawFindings : rawFindings sampleImg (1 / 2) = [sampleFinding] := by
  unfold rawFindings
  rw [sample_componentList, List.filterMap_cons, dif_pos sampleK_nonempty]
  rfl

theorem sample_extract :
    extract_findings_from_mask sampleImg (1 / 2) = [sampleFinding] := by
  unfold extract_findings_from_mask
  rw [sample_rawFindings]
  rfl

/-- Witness for C8: the theorem applied to the finding extracted from the
    concrete 1×1 mask `sampleImg` at threshold 1/2. -/
theorem claim8_witness :
    sampleFinding ∈ extract_findings_from_mask sampleImg (1 / 2) ∧
    (0 ≤ sampleFinding.x ∧ sampleFinding.x + sampleFinding.width ≤ (1 : ℤ) ∧
      0 ≤ sampleFinding.y ∧ sampleFinding.y + sampleFinding.height ≤ (1 : ℤ) ∧
      1 ≤ sampleFinding.width ∧ 1 ≤ sampleFinding.height) := by
  have hmem : sampleFinding ∈ extract_findings_from_mask sampleImg (1 / 2) := by
    rw [sample_extract]
    exact List.mem_singleton.2 rfl
  exact ⟨hmem, claim8_bbox_in_bounds sampleImg (1 / 2) sampleFinding hmem⟩

theorem reach_mem {h w : ℕ} {m : Msk h w} {p q : Fin h × Fin w}
    (hpq : Reach m p q) (hp : m p.1 p.2) : m q.1 q.2 := by
  induction hpq with
  | refl => exact hp
  | tail _ hstep _ => exact hstep.2.1

theorem mem_componentList {h w : ℕ} {m : Msk h w} {K : Finset (Fin h × Fin w)}
    (hK : K ∈ componentList m) : ∃ p, isRep m p ∧ K = component m p := by
  unfold componentList at hK
  rcases List.mem_map.1 hK with ⟨p, hpmem, rfl⟩
  exact ⟨p, of_decide_eq_true (List.mem_filter.1 hpmem).2, rfl⟩

/-- Claim C10 (implicit): for every mask with values in [0,1] and every
    threshold t ≥ 0, each extracted finding's confidence is the mean of the
    mask over its region and satisfies t < confidence ≤ peak ≤ 1, where peak
    is the maximum of the masked values of the region; in particular no
    finding's confidence is at or below the extraction threshold. -/
theorem claim10_threshold_confidence {h w : ℕ} (m : Img h w) (t : ℝ)
    (hm : ∀ i j, 0 ≤ m i j ∧ m i j ≤ 1) (ht : 0 ≤ t) :
    ∀ f ∈ extract_findings_from_mask m t,
      ∃ K, K ∈ componentList (binOf m t) ∧ f.confidence = regionMean m K ∧
        t < regionMean m K ∧ regionMean m K ≤ regionPeak m K ∧
        regionPeak m K ≤ 1 := by
  intro f hf
  obtain ⟨K, hK, hKmem, rfl⟩ := mem_rawFindings (mem_sortByConfDesc.1 hf)
  obtain ⟨p, hrep, rfl⟩ := mem_componentList hKmem
  set K := component (binOf m t) p with hKdef
  have hKgt : ∀ q ∈ K, t < m q.1 q.2 := by
    intro q hq
    exact reach_mem (Finset.mem_filter.1 hq).2 hrep.1
  have hcardpos : (0 : ℝ) < (K.card : ℝ) := by
    exact_mod_cast Finset.card_pos.2 hK
  have hsum : (K.card : ℝ) * t < ∑ q in K, m q.1 q.2 := by
    have hlt := Finset.sum_lt_sum_of_nonempty hK hKgt
    rw [Finset.sum_const, nsmul_eq_mul] at hlt
    exact hlt
  have hmean : t < regionMean m K := by
    unfold regionMean
    rw [lt_div_iff hcardpos]
    linarith
  have hpeak_ge : ∀ q ∈ K, m q.1 q.2 ≤ regionPeak m K := by
    intro q hq
    have h1 := gridMax_ge (fun i j => if (i, j) ∈ K then m i j else 0) q.1 q.2
    simp only [Prod.mk.eta] at h1
    rw [if_pos hq] at h1
    exact h1
  have hsum2 : ∑ q in K, m q.1 q.2 ≤ (K.card : ℝ) * regionPeak m K := by
    calc ∑ q in K, m q.1 q.2 ≤ ∑ _q in K, regionPeak m K :=
          Finset.sum_le_sum hpeak_ge
      _ = (K.card : ℝ) * regionPeak m K := by rw [Finset.sum_const, nsmul_eq_mul]
  have hmp : regionMean m K ≤ regionPeak m K := by
    unfold regionMean
    rw [div_le_iff hcardpos]
    linarith
  have hpeak1 : regionPeak m K ≤ 1 := by
    unfold regionPeak gridMax
    apply csSup_le
    · obtain ⟨q, _⟩ := id hK
      exact ⟨_, ⟨(q.1, q.2), rfl⟩⟩
    · rintro x ⟨q, rfl⟩
      dsimp only
      split_ifs
      · exact (hm q.1 q.2).2
      · exact zero_le_one
  exact ⟨K, hKmem, rfl, hmean, hmp, hpeak1⟩

/-- Witness for C10: the theorem applied to the concrete 1×1 mask
    `sampleImg` at threshold 1/2. -/
theorem claim10_witness :
    (∀ i j, 0 ≤ sampleImg i j ∧ sampleImg i j ≤ 1) ∧ (0 : ℝ) ≤ 1 / 2 ∧
    (∀ f ∈ extract_findings_from_mask sampleImg (1 / 2),
      ∃ K, K ∈ componentList (binOf sampleImg (1 / 2)) ∧
        f.confidence = regionMean sampleImg K ∧
        1 / 2 < regionMean sampleImg K ∧
        regionMean sampleImg K ≤ regionPeak sampleImg K ∧
        regionPeak sampleImg K ≤ 1) :=
  ⟨fun i j => by norm_num [sampleImg], by norm_num,
    claim10_threshold_confidence sampleImg (1 / 2)
      (fun i j => by norm_num [sampleImg]) (by norm_num)⟩

/-- Claim C7: for every probability mask and threshold, the extracted
    findings are sorted by confidence in non-increasing order, and the
    findings of any fixed confidence appear in exactly the encounter
    (labelling) order in which their components were produced. -/
theorem claim7_sorted_stable {h w : ℕ} (m : Img h w) (t : ℝ) :
    (extract_findings_from_mask m t).Pairwise
      (fun a b => b.confidence ≤ a.confidence) ∧
    (∀ c : ℝ, listOfConf c (extract_findings_from_mask m t) =
      listOfConf c (rawFindings m t)) :=
  ⟨pairwise_sortByConfDesc _, fun c => listOfConf_sortByConfDesc c _⟩

end MRI
